import Mathlib

/-!
Formal model of `src/src/codegen/impl_debug.rs` from Niederb/rust-bindgen.

The file embeds the three layers of the debug-impl synthesizer:
the renderability resolver `Item.impl_debug`, the per-field layer
(`FieldData.impl_debug`, `BitfieldUnit.impl_debug`) and the record
renderer `gen_debug_impl`.  Facts consumed from the surrounding
generator (whitelist membership, item opacity, template-instantiation
opacity, `can_trivially_derive_debug` of a function signature,
`has_type_param_in_array`) are carried as data on the embedded items
and type kinds, exactly as the code consumes them.  Braces in format
strings are written with their code points (\x7b, \x7d).
-/

namespace ImplDebug

/-- Identifier of an item in the type-graph arena. -/
abbrev ItemId := Nat

/-- Opening brace character, written via its code point. -/
def lbrace : Char := '\x7b'

/-- Closing brace character, written via its code point. -/
def rbrace : Char := '\x7d'

/-- The `quote::Tokens` values that `impl_debug.rs` constructs: a direct
field access `self.name`, a bitfield accessor call `self.name()`, the
manual array iterate-and-join expression, and a format-string literal. -/
inductive Tokens where
  | selfField (name : String)
  | bitfieldGetter (name : String)
  | arrayIter (name : String)
  | fmtString (s : String)
  deriving DecidableEq, Repr

/-- The `TypeKind` variants matched by `Item::impl_debug`.  Payload data
the code never reads is dropped; externally computed facts the code
consumes are carried as booleans: the signature's
`can_trivially_derive_debug()` on `function`, and
`inst.is_opaque(ctx, self)` on `templateInstantiation`. -/
inductive TypeKind where
  | void
  | nullPtr
  | int
  | float
  | complex
  | function (canTriviallyDeriveDebug : Bool)
  | enum
  | reference
  | blockPointer
  | unresolvedTypeRef
  | objCInterface
  | objCId
  | comp
  | objCSel
  | templateInstantiation (isOpaqueForItem : Bool)
  | typeParam
  | array (elem : ItemId) (len : Nat)
  | resolvedTypeRef (t : ItemId)
  | templateAlias (t : ItemId)
  | alias (t : ItemId)
  | pointer (inner : ItemId)
  | opaqueKind
  deriving DecidableEq, Repr

/-- An item of the type graph as consumed by `impl_debug.rs`: its id, its
canonical (display) name, the externally supplied `is_opaque(ctx, &())`
fact, the externally supplied `has_type_param_in_array(ctx)` fact, and
`as_type()` (`none` for non-type items). -/
structure Item where
  id : ItemId
  canonicalName : String
  isOpaqueFlag : Bool
  hasTypeParamInArrayFlag : Bool
  ty : Option TypeKind
  deriving DecidableEq, Repr

/-- The slice of `BindgenContext` that `impl_debug.rs` consumes:
`resolve_item` / `resolve_type` as a total map over ids, and
`whitelisted_items()` as a list of ids. -/
structure BindgenContext where
  items : ItemId → Item
  whitelist : List ItemId

/-- A bitfield sub-field: `name()` and its bit width. -/
structure Bitfield where
  name : Option String
  width : Nat
  deriving DecidableEq, Repr

/-- A bitfield storage unit: the ordered sub-fields `bitfields()`. -/
structure BitfieldUnit where
  bitfields : List Bitfield
  deriving DecidableEq, Repr

/-- `FieldData`: a data member with `name()` and `ty()`. -/
structure FieldData where
  name : Option String
  ty : ItemId
  deriving DecidableEq, Repr

/-- `ir::comp::Field`. -/
inductive Field where
  | dataMember (fd : FieldData)
  | bitfields (bu : BitfieldUnit)
  deriving DecidableEq, Repr

/-- `ir::comp::CompKind`. -/
inductive CompKind where
  | struct
  | union
  deriving DecidableEq, Repr

/-- Modelled from the spec: the constant `RUST_DERIVE_IN_ARRAY_LIMIT`
lives in `ir::ty`, which is not part of this repository's visible
source; the spec documents the reference threshold as 32 (the largest
array size for which the host language auto-derives rendering). -/
def RUST_DERIVE_IN_ARRAY_LIMIT : Nat := 32

/-- Decimal digit list of a natural number (little helper for
`natRepr`), accumulating digits from the right. -/
def natReprAux (n : Nat) (acc : List Char) : List Char :=
  let d : Char := Char.ofNat (48 + n % 10)
  if h : n < 10 then d :: acc
  else natReprAux (n / 10) (d :: acc)
termination_by n
decreasing_by exact Nat.div_lt_self (by omega) (by omega)

/-- Decimal representation of a natural number, mirroring the display
of `usize` interpolated by the source's string formatting. -/
def natRepr (n : Nat) : String := ⟨natReprAux n []⟩

/-- The alias-following target of a type kind: `ResolvedTypeRef`,
`TemplateAlias` and `Alias` are the three alias-like variants that
`Item::impl_debug` follows. -/
def aliasTargetOfKind : TypeKind → Option ItemId
  | .resolvedTypeRef t => some t
  | .templateAlias t => some t
  | .alias t => some t
  | _ => none

/-- Modelled from the spec: `canonicalForm(typeRef)` of section 6, the
fully alias-stripped canonical form computed by
`ctx.resolve_type(inner).canonical_type(ctx)`; `ir::ty` is not part of
this repository's visible source.  Fuel bounds the alias chain; a
target that is not a type stops the stripping. -/
def canonicalKind (ctx : BindgenContext) : Nat → TypeKind → TypeKind
  | 0, k => k
  | fuel + 1, k =>
    match aliasTargetOfKind k with
    | some t =>
      match (ctx.items t).ty with
      | some k2 => canonicalKind ctx fuel k2
      | none => k
    | none => k

/-- The nested `debug_print` helper of `Item::impl_debug`: the simple
fragment `"name: \x7b:?\x7d"` together with the access expression
`self.name`. -/
def debug_print (name : String) : Option (String × List Tokens) :=
  some (name ++ ": \x7b:?\x7d", [Tokens.selfField name])

/-- `Item::impl_debug` from `impl_debug.rs`: the renderability
resolver.  Fuel decreases only on the alias-following recursion
(`ResolvedTypeRef` / `TemplateAlias` / `Alias`), the sole
self-recursion of the source function; exhausted fuel yields `none`,
which is unreachable whenever alias chains are acyclic. -/
def Item.impl_debug (ctx : BindgenContext) (fuel : Nat) (self : Item) (name : String) :
    Option (String × List Tokens) :=
  if ctx.whitelist.contains self.id = false then none
  else
    match self.ty with
      | none => none
      | some tk =>
        match tk with
        | .void | .nullPtr | .int | .float | .complex | .function _ | .enum
        | .reference | .blockPointer | .unresolvedTypeRef | .objCInterface
        | .objCId | .comp | .objCSel => debug_print name
        | .templateInstantiation instOpaqueForItem =>
          if instOpaqueForItem then some (name ++ ": opaque", [])
          else debug_print name
        | .typeParam => some (name ++ ": Non-debuggable generic", [])
        | .array _ len =>
          if self.hasTypeParamInArrayFlag then
            some (name ++ ": Array with length " ++ natRepr len, [])
          else if len < RUST_DERIVE_IN_ARRAY_LIMIT then
            debug_print name
          else
            some (name ++ ": [\x7b\x7d]", [Tokens.arrayIter name])
        | .resolvedTypeRef t | .templateAlias t | .alias t =>
          match fuel with
          | 0 => none
          | f + 1 => Item.impl_debug ctx f (ctx.items t) name
        | .pointer inner =>
          match (ctx.items inner).ty with
          | none => debug_print name
          | some innerKind =>
            match canonicalKind ctx fuel innerKind with
            | .function c =>
              if c = false then some (name ++ ": FunctionPointer", [])
              else debug_print name
            | _ => debug_print name
        | .opaqueKind => none

/-- `FieldData::impl_debug`: a named data member resolves its type item
with the member name as label; an unnamed member yields no fragment. -/
def FieldData.impl_debug (fd : FieldData) (ctx : BindgenContext) (fuel : Nat) : Option (String × List Tokens) :=
  match fd.name with
  | some name => Item.impl_debug ctx fuel (ctx.items fd.ty) name
  | none => none

/-- The loop of `BitfieldUnit::impl_debug`, indexed exactly like the
source: the `", "` separator is pushed for every sub-field at index
`i > 0`, before the name check, as in the source. -/
def bitfieldLoop (acc : String × List Tokens) (i : Nat) : List Bitfield → String × List Tokens
  | [] => acc
  | b :: rest =>
    let fs := if i > 0 then acc.1 ++ ", " else acc.1
    match b.name with
    | some n =>
      bitfieldLoop (fs ++ n ++ " : \x7b:?\x7d", acc.2 ++ [Tokens.bitfieldGetter n]) (i + 1) rest
    | none => bitfieldLoop (fs, acc.2) (i + 1) rest

/-- `BitfieldUnit::impl_debug`: renders every named sub-field through
its generated accessor and always returns `some`. -/
def BitfieldUnit.impl_debug (bu : BitfieldUnit) (_ctx : BindgenContext) : Option (String × List Tokens) :=
  some (bitfieldLoop ("", []) 0 bu.bitfields)

/-- The finished rendering procedure: the format string plus the
collected value tokens. -/
structure RenderProcedure where
  format_string : String
  tokens : List Tokens
  deriving DecidableEq, Repr

/-- The join loop of `gen_debug_impl`'s struct branch, indexed exactly
like the source's `enumerate`: fragments surviving the filter are
joined with `", "` and their token lists concatenated in order. -/
def fieldsLoop (acc : String × List Tokens) (i : Nat) : List (String × List Tokens) → String × List Tokens
  | [] => acc
  | (fs, toks) :: rest =>
    let s := if i > 0 then acc.1 ++ ", " else acc.1
    fieldsLoop (s ++ fs, acc.2 ++ toks) (i + 1) rest

/-- `gen_debug_impl` from `impl_debug.rs`: the record renderer.  Seeds
the format string with the canonical name and an escaped opening
brace, fills the body (`opaque`, `union`, or the joined surviving
field fragments), closes with the escaped closing brace. -/
def gen_debug_impl (ctx : BindgenContext) (fuel : Nat) (fields : List Field) (item : Item) (kind : CompKind) : RenderProcedure :=
  let struct_name := item.canonicalName
  let format_string := struct_name ++ " \x7b\x7b "
  let body : String × List Tokens :=
    if item.isOpaqueFlag then (format_string ++ "opaque", [])
    else
      match kind with
      | .union => (format_string ++ "union", [])
      | .struct =>
        let processed := fields.filterMap fun f =>
          match f with
          | .dataMember fd => fd.impl_debug ctx fuel
          | .bitfields bu => bu.impl_debug ctx
        fieldsLoop (format_string, []) 0 processed
  ⟨body.1 ++ " \x7d\x7d", body.2⟩

/-- Mirrors the source's `tokens.insert(0, format-string literal)`: the
arguments handed to the output-writing step, format string first. -/
def RenderProcedure.writeArgs (p : RenderProcedure) : List Tokens :=
  Tokens.fmtString p.format_string :: p.tokens

/-- Count of placeholder markers in a Rust format string, as a list
scan: a `\x7b\x7b` pair is an escaped literal brace, any other `\x7b`
opens a placeholder. -/
def cphAux : List Char → Nat
  | [] => 0
  | [c] => if c = lbrace then 1 else 0
  | c :: c2 :: rest =>
    if c = lbrace then
      if c2 = lbrace then cphAux rest else 1 + cphAux (c2 :: rest)
    else cphAux (c2 :: rest)

/-- Count of placeholder markers in a format string. -/
def cph (s : String) : Nat := cphAux s.data

/-- A label is brace-free: it contains neither brace character.  This
is the precondition under which placeholder counting is compositional. -/
def labelOk (s : String) : Prop := ∀ c ∈ s.data, c ≠ lbrace ∧ c ≠ rbrace

/-- Brace-freedom of an optional label (trivial when absent). -/
def optLabelOk : Option String → Prop
  | some n => labelOk n
  | none => True

instance decLabelOk (s : String) : Decidable (labelOk s) :=
  inferInstanceAs (Decidable (∀ c ∈ s.data, c ≠ lbrace ∧ c ≠ rbrace))

instance decOptLabelOk : (o : Option String) → Decidable (optLabelOk o)
  | some n => inferInstanceAs (Decidable (labelOk n))
  | none => isTrue trivial

/-- Brace-freedom of all the labels a field contributes. -/
def fieldLabelsOk : Field → Prop
  | .dataMember fd => optLabelOk fd.name
  | .bitfields bu => ∀ b ∈ bu.bitfields, optLabelOk b.name

instance decFieldLabelsOk : (f : Field) → Decidable (fieldLabelsOk f)
  | .dataMember fd => inferInstanceAs (Decidable (optLabelOk fd.name))
  | .bitfields bu => inferInstanceAs (Decidable (∀ b ∈ bu.bitfields, optLabelOk b.name))

/-- A character list does not end in a lone opening brace, so that
placeholder counting distributes over appending to its right. -/
def noTrailLb : List Char → Prop
  | [] => True
  | [c] => c ≠ lbrace
  | _ :: c2 :: rest => noTrailLb (c2 :: rest)

instance decNoTrailLb : (l : List Char) → Decidable (noTrailLb l)
  | [] => isTrue trivial
  | [c] => inferInstanceAs (Decidable (c ≠ lbrace))
  | _ :: c2 :: rest => decNoTrailLb (c2 :: rest)

/-- A render fragment is well formed when its placeholder count equals
its value-expression count and its template does not end in a lone
opening brace. -/
def fragOk (p : String × List Tokens) : Prop :=
  cphAux p.1.data = p.2.length ∧ noTrailLb p.1.data

/-- Whether a canonical pointee kind is a function signature that is
not trivially renderable — the condition of the FunctionPointer arm. -/
def isNonDebugFnKind : TypeKind → Bool
  | .function c => !c
  | _ => false

/-- `n` copies of the separator `", "` as one string. -/
def sepJoin (n : Nat) : String := ⟨(List.replicate n (", ".data)).flatten⟩

/-- Boundedness of the alias chain hanging off a type kind: the chain
of alias-like nodes reaches a non-alias kind (or a non-type item)
within the given number of steps.  The base constructor covers every
non-alias kind at any bound. -/
inductive KB (ctx : BindgenContext) : TypeKind → Nat → Prop where
  | base (k : TypeKind) (n : Nat) : aliasTargetOfKind k = none → KB ctx k n
  | stepSome (k : TypeKind) (t : ItemId) (k2 : TypeKind) (n : Nat) :
      aliasTargetOfKind k = some t → (ctx.items t).ty = some k2 →
      KB ctx k2 n → KB ctx k (n + 1)
  | stepNone (k : TypeKind) (t : ItemId) (n : Nat) :
      aliasTargetOfKind k = some t → (ctx.items t).ty = none → KB ctx k (n + 1)

/-- The acyclicity invariant of the spec: every alias chain in the
type graph is bounded by `n`. -/
def GraphBounded (ctx : BindgenContext) (n : Nat) : Prop :=
  ∀ id k, (ctx.items id).ty = some k → KB ctx k n

/-! Concrete type graphs used to instantiate theorems on closed inputs. -/

/-- A plain whitelisted integer item with id 1. -/
def intItemW : Item := ⟨1, "Int", false, false, some TypeKind.int⟩

/-- A concrete item map: id 2 is an alias to 1, id 3 a resolved type
reference to 2, id 4 a template alias to 3, id 9 an integer item that
is kept off the whitelist, ids 20 and 21 function signatures (20 not
trivially derivable, 21 trivially derivable); every other id is the
integer item. -/
def itemsW : ItemId → Item := fun id =>
  if id = 2 then ⟨2, "A2", false, false, some (TypeKind.alias 1)⟩
  else if id = 3 then ⟨3, "A3", false, false, some (TypeKind.resolvedTypeRef 2)⟩
  else if id = 4 then ⟨4, "A4", false, false, some (TypeKind.templateAlias 3)⟩
  else if id = 9 then ⟨9, "B", false, false, some TypeKind.int⟩
  else if id = 20 then ⟨20, "FnBad", false, false, some (TypeKind.function false)⟩
  else if id = 21 then ⟨21, "FnGood", false, false, some (TypeKind.function true)⟩
  else intItemW

/-- The concrete context built over `itemsW`; id 9 is not whitelisted. -/
def ctxW : BindgenContext := ⟨itemsW, [1, 2, 3, 4, 5, 6, 7, 8, 20, 21]⟩

/-- A context where every id resolves to the integer item. -/
def ctxS : BindgenContext := ⟨fun _ => intItemW, [1]⟩

theorem data_append (a b : String) : (a ++ b).data = a.data ++ b.data := by
  cases a; cases b; rfl

theorem str_ext {a b : String} (h : a.data = b.data) : a = b := by
  cases a; cases b; exact congrArg String.mk h

theorem noTrailLb_append_right (a : List Char) {b : List Char} (hb : b ≠ []) :
    noTrailLb (a ++ b) ↔ noTrailLb b := by
  induction a with
  | nil => simp
  | cons c a' ih =>
    cases h : a' ++ b with
    | nil => exact absurd (List.append_eq_nil.mp h).2 hb
    | cons x xs =>
      show noTrailLb (c :: (a' ++ b)) ↔ _
      rw [h]
      show noTrailLb (x :: xs) ↔ _
      rw [← h]
      exact ih

theorem noTrailLb_append {a b : List Char} (ha : noTrailLb a) (hb : noTrailLb b) :
    noTrailLb (a ++ b) := by
  cases b with
  | nil => simpa using ha
  | cons x xs => exact (noTrailLb_append_right a (by simp)).mpr hb

theorem cphAux_append : ∀ (a : List Char), noTrailLb a → ∀ b, cphAux (a ++ b) = cphAux a + cphAux b
  | [], _, b => by simp [cphAux]
  | [c], h, b => by
    have hc : c ≠ lbrace := h
    cases b with
    | nil => simp [cphAux, hc]
    | cons d bs => simp [cphAux, hc]
  | c :: c2 :: a', h, b => by
    have h' : noTrailLb (c2 :: a') := h
    by_cases hc : c = lbrace
    · by_cases hc2 : c2 = lbrace
      · subst hc; subst hc2
        show cphAux (lbrace :: lbrace :: (a' ++ b)) = cphAux (lbrace :: lbrace :: a') + cphAux b
        have ha' : noTrailLb a' := by
          cases a' with
          | nil => trivial
          | cons y ys => exact h'
        simp [cphAux, cphAux_append a' ha' b]
      · subst hc
        show cphAux (lbrace :: c2 :: (a' ++ b)) = cphAux (lbrace :: c2 :: a') + cphAux b
        have := cphAux_append (c2 :: a') h' b
        simp [cphAux, hc2] at this ⊢
        omega
    · show cphAux (c :: c2 :: (a' ++ b)) = cphAux (c :: c2 :: a') + cphAux b
      have := cphAux_append (c2 :: a') h' b
      simp [cphAux, hc] at this ⊢
      exact this

theorem cphAux_of_lfree : ∀ (a : List Char), (∀ c ∈ a, c ≠ lbrace) → cphAux a = 0
  | [], _ => rfl
  | [c], h => by simp [cphAux, h c (by simp)]
  | c :: c2 :: a', h => by
    have hc : c ≠ lbrace := h c (by simp)
    have h' : ∀ x ∈ c2 :: a', x ≠ lbrace := fun x hx => h x (by simp [hx])
    simp [cphAux, hc, cphAux_of_lfree (c2 :: a') h']

theorem noTrailLb_of_lfree : ∀ (a : List Char), (∀ c ∈ a, c ≠ lbrace) → noTrailLb a
  | [], _ => trivial
  | [c], h => h c (by simp)
  | _ :: c2 :: a', h =>
    noTrailLb_of_lfree (c2 :: a') (fun x hx => h x (by simp [hx]))

theorem labelOk_lfree {s : String} (h : labelOk s) : ∀ c ∈ s.data, c ≠ lbrace :=
  fun c hc => (h c hc).1

theorem cphAux_lfree_append {a : List Char} (h : ∀ c ∈ a, c ≠ lbrace) (b : List Char) :
    cphAux (a ++ b) = cphAux b := by
  rw [cphAux_append a (noTrailLb_of_lfree a h) b, cphAux_of_lfree a h, Nat.zero_add]

/-- Every character emitted by `natReprAux` is an accumulator character
or a decimal digit, hence never a brace. -/
theorem natReprAux_lfree (n : Nat) (acc : List Char) (hacc : ∀ c ∈ acc, c ≠ lbrace ∧ c ≠ rbrace) :
    ∀ c ∈ natReprAux n acc, c ≠ lbrace ∧ c ≠ rbrace := by
  have hdig : ∀ m, m < 10 → Char.ofNat (48 + m) ≠ lbrace ∧ Char.ofNat (48 + m) ≠ rbrace := by decide
  unfold natReprAux
  split
  · intro c hc
    rcases List.mem_cons.mp hc with rfl | hc
    · exact hdig (n % 10) (Nat.mod_lt _ (by omega))
    · exact hacc c hc
  · exact natReprAux_lfree (n / 10) _ (by
      intro c hc
      rcases List.mem_cons.mp hc with rfl | hc
      · exact hdig (n % 10) (Nat.mod_lt _ (by omega))
      · exact hacc c hc)
termination_by n
decreasing_by exact Nat.div_lt_self (by omega) (by omega)

theorem natRepr_lfree (n : Nat) : ∀ c ∈ (natRepr n).data, c ≠ lbrace ∧ c ≠ rbrace :=
  natReprAux_lfree n [] (by simp)

/-! ## C7: opacity suppresses rendering in gen_debug_impl -/

/-- C7: for every item whose opacity flag is set, `gen_debug_impl`
produces the template `"Name \x7b\x7b opaque \x7d\x7d"` with zero
value-expressions, regardless of the record kind and the supplied
fields. -/
theorem c7_opacity_suppresses (ctx : BindgenContext) (fuel : Nat) (fields : List Field)
    (item : Item) (kind : CompKind) (h : item.isOpaqueFlag = true) :
    gen_debug_impl ctx fuel fields item kind =
      ⟨item.canonicalName ++ " \x7b\x7b opaque \x7d\x7d", []⟩ := by
  have hval : gen_debug_impl ctx fuel fields item kind =
      ⟨item.canonicalName ++ " \x7b\x7b " ++ "opaque" ++ " \x7d\x7d", []⟩ := by
    simp [gen_debug_impl, h]
  rw [hval]
  congr 1
  apply str_ext
  simp [data_append, List.append_assoc]

/-- Witness for C7 at a concrete opaque union item with fields. -/
theorem c7_opacity_suppresses_witness :
    gen_debug_impl ctxW 1 [Field.dataMember ⟨some "a", 1⟩] ⟨7, "S", true, false, some TypeKind.comp⟩
        CompKind.union =
      ⟨("S" : String) ++ " \x7b\x7b opaque \x7d\x7d", []⟩ :=
  c7_opacity_suppresses ctxW 1 [Field.dataMember ⟨some "a", 1⟩]
    ⟨7, "S", true, false, some TypeKind.comp⟩ CompKind.union rfl

/-! ## C2: the resolver and the opacity flag -/

/-- C2 counterexample: a whitelisted item whose opacity flag is set but
whose type kind is a plain integer is still rendered by the resolver —
`Item::impl_debug` never returns `none` because of the opacity flag. -/
theorem c2_opacity_counterexample :
    Item.impl_debug ctxW 1 ⟨1, "Int", true, false, some TypeKind.int⟩ "x" =
      some ("x: \x7b:?\x7d", [Tokens.selfField "x"]) ∧
    Item.impl_debug ctxW 1 ⟨1, "Int", true, false, some TypeKind.int⟩ "x" ≠ none := by
  constructor <;> decide

/-- C2 amended: `Item::impl_debug` never reads the item's opacity flag;
toggling it leaves the result unchanged (only `gen_debug_impl` consults
the flag, for the record itself).  The resolver returns `none` for
non-whitelisted items, non-type items, and the `Opaque` type kind. -/
theorem c2_opacity_flag_ignored (ctx : BindgenContext) (fuel : Nat) (item : Item)
    (name : String) (b : Bool) :
    Item.impl_debug ctx fuel { item with isOpaqueFlag := b } name =
      Item.impl_debug ctx fuel item name := by
  cases item
  rw [Item.impl_debug.eq_def, Item.impl_debug.eq_def]

/-! ## C5: non-whitelisted references are omitted -/

/-- C5: an item whose id is not whitelisted resolves to `none`; as a
consequence, a non-opaque struct whose second field's type is not
whitelisted renders only the first field, with no stray separator. -/
theorem c5_whitelist_omission :
    (∀ (ctx : BindgenContext) (fuel : Nat) (item : Item) (name : String),
        ctx.whitelist.contains item.id = false →
        Item.impl_debug ctx fuel item name = none) ∧
    (∀ (ctx : BindgenContext) (fuel : Nat) (item : Item) (na nb : String) (tyA tyB : ItemId),
        item.isOpaqueFlag = false →
        ctx.whitelist.contains (ctx.items tyA).id = true →
        (ctx.items tyA).ty = some TypeKind.int →
        ctx.whitelist.contains (ctx.items tyB).id = false →
        gen_debug_impl ctx fuel
            [Field.dataMember ⟨some na, tyA⟩, Field.dataMember ⟨some nb, tyB⟩] item
            CompKind.struct =
          ⟨item.canonicalName ++ (" \x7b\x7b " ++ (na ++ ": \x7b:?\x7d \x7d\x7d")),
            [Tokens.selfField na]⟩) := by
  constructor
  · intro ctx fuel item name h
    rw [Item.impl_debug.eq_def, h]
    simp
  · intro ctx fuel item na nb tyA tyB hop hwa hta hwb
    have hresA : Item.impl_debug ctx fuel (ctx.items tyA) na =
        some (na ++ ": \x7b:?\x7d", [Tokens.selfField na]) := by
      rw [Item.impl_debug.eq_def, hwa, hta]
      simp [debug_print]
    have hresB : Item.impl_debug ctx fuel (ctx.items tyB) nb = none := by
      rw [Item.impl_debug.eq_def, hwb]
      simp
    have hval : gen_debug_impl ctx fuel
        [Field.dataMember ⟨some na, tyA⟩, Field.dataMember ⟨some nb, tyB⟩] item
        CompKind.struct =
        ⟨item.canonicalName ++ " \x7b\x7b " ++ (na ++ ": \x7b:?\x7d") ++ " \x7d\x7d",
          [] ++ [Tokens.selfField na]⟩ := by
      simp [gen_debug_impl, hop, FieldData.impl_debug, hresA, hresB, fieldsLoop]
    rw [hval]
    congr 1
    apply str_ext
    simp [data_append, List.append_assoc]

/-- Witness for C5 on the concrete context: id 9 is not whitelisted, so
the resolver drops it and the record keeps only field `a`. -/
theorem c5_whitelist_omission_witness :
    Item.impl_debug ctxW 1 (itemsW 9) "x" = none ∧
    gen_debug_impl ctxW 1 [Field.dataMember ⟨some "a", 1⟩, Field.dataMember ⟨some "b", 9⟩]
        ⟨7, "S", false, false, some TypeKind.comp⟩ CompKind.struct =
      ⟨("S" : String) ++ (" \x7b\x7b " ++ ("a" ++ ": \x7b:?\x7d \x7d\x7d")), [Tokens.selfField "a"]⟩ :=
  ⟨c5_whitelist_omission.1 ctxW 1 (itemsW 9) "x" (by decide),
   c5_whitelist_omission.2 ctxW 1 ⟨7, "S", false, false, some TypeKind.comp⟩ "a" "b" 1 9
     rfl (by decide) (by decide) (by decide)⟩

/-! ## C1: the small-array threshold boundary -/

/-- C1 counterexample: for an array of primitive element type whose
length is exactly `RUST_DERIVE_IN_ARRAY_LIMIT`, the resolver takes the
manual join-and-wrap path (`"label: [\x7b\x7d]"` with the iterating
value-expression), not the direct case-3 fragment the claim states. -/
theorem c1_array_threshold_counterexample :
    Item.impl_debug ctxW 1
        ⟨5, "Arr", false, false, some (TypeKind.array 1 RUST_DERIVE_IN_ARRAY_LIMIT)⟩ "x" =
      some ("x: [\x7b\x7d]", [Tokens.arrayIter "x"]) ∧
    Item.impl_debug ctxW 1
        ⟨5, "Arr", false, false, some (TypeKind.array 1 RUST_DERIVE_IN_ARRAY_LIMIT)⟩ "x" ≠
      some ("x: \x7b:?\x7d", [Tokens.selfField "x"]) := by
  constructor <;> decide

/-- C1 amended: the direct case-3 path applies exactly to lengths
strictly below `RUST_DERIVE_IN_ARRAY_LIMIT`; at the threshold and above
(in particular threshold and threshold + 1) the resolver produces the
manual join-and-wrap fragment with one string-valued value-expression. -/
theorem c1_array_threshold_amended (ctx : BindgenContext) (fuel : Nat) (item : Item)
    (name : String) (elem : ItemId) (len : Nat)
    (hw : ctx.whitelist.contains item.id = true)
    (hty : item.ty = some (TypeKind.array elem len))
    (hgen : item.hasTypeParamInArrayFlag = false) :
    (len < RUST_DERIVE_IN_ARRAY_LIMIT →
      Item.impl_debug ctx fuel item name =
        some (name ++ ": \x7b:?\x7d", [Tokens.selfField name])) ∧
    (RUST_DERIVE_IN_ARRAY_LIMIT ≤ len →
      Item.impl_debug ctx fuel item name =
        some (name ++ ": [\x7b\x7d]", [Tokens.arrayIter name])) := by
  constructor
  · intro hlt
    rw [Item.impl_debug.eq_def, hw, hty, hgen]
    simp [hlt, debug_print]
  · intro hge
    rw [Item.impl_debug.eq_def, hw, hty, hgen]
    simp [Nat.not_lt.mpr hge, debug_print]

/-- Witness for C1: length 31 renders directly, length 32 through the
manual join path. -/
theorem c1_array_threshold_witness :
    Item.impl_debug ctxW 1 ⟨5, "Arr", false, false, some (TypeKind.array 1 31)⟩ "x" =
      some ("x" ++ ": \x7b:?\x7d", [Tokens.selfField "x"]) ∧
    Item.impl_debug ctxW 1 ⟨5, "Arr", false, false, some (TypeKind.array 1 32)⟩ "x" =
      some ("x" ++ ": [\x7b\x7d]", [Tokens.arrayIter "x"]) :=
  ⟨(c1_array_threshold_amended ctxW 1 ⟨5, "Arr", false, false, some (TypeKind.array 1 31)⟩
      "x" 1 31 (by decide) rfl rfl).1 (by decide),
   (c1_array_threshold_amended ctxW 1 ⟨5, "Arr", false, false, some (TypeKind.array 1 32)⟩
      "x" 1 32 (by decide) rfl rfl).2 (by decide)⟩

/-! ## C3: bitfield padding and the separator -/

/-- C3: evaluating `BitfieldUnit::impl_debug` at the failing input — a
unit with named sub-fields `a` and `b` around one unnamed padding
sub-field — shows the source pushes the `", "` separator before the
name check, so the padding contributes a stray separator and the
template is `"a : \x7b:?\x7d, , b : \x7b:?\x7d"` instead of the claimed
`"a : \x7b:?\x7d, b : \x7b:?\x7d"`; the two value-expressions are the
two accessor calls, as claimed. -/
theorem c3_bitfield_padding_eval :
    BitfieldUnit.impl_debug ⟨[⟨some "a", 3⟩, ⟨none, 2⟩, ⟨some "b", 5⟩]⟩ ctxW =
      some ("a : \x7b:?\x7d, , b : \x7b:?\x7d",
        [Tokens.bitfieldGetter "a", Tokens.bitfieldGetter "b"]) ∧
    ("a : \x7b:?\x7d, , b : \x7b:?\x7d" : String) ≠ "a : \x7b:?\x7d, b : \x7b:?\x7d" := by
  constructor <;> decide

/-! ## C6: function pointers -/

/-- C6: for a whitelisted, non-opaque item of pointer kind, the
resolver returns the literal `"label: FunctionPointer"` fragment with
zero value-expressions exactly when the pointee's fully alias-stripped
canonical form is a function signature that is not trivially
renderable; in every other case it returns the case-3 fragment with
one value-expression accessing the pointer's own value. -/
theorem c6_function_pointer (ctx : BindgenContext) (fuel : Nat) (item : Item)
    (name : String) (inner : ItemId) (k : TypeKind)
    (hw : ctx.whitelist.contains item.id = true)
    (_hop : item.isOpaqueFlag = false)
    (hty : item.ty = some (TypeKind.pointer inner))
    (hk : (ctx.items inner).ty = some k) :
    Item.impl_debug ctx fuel item name =
      if isNonDebugFnKind (canonicalKind ctx fuel k) = true
      then some (name ++ ": FunctionPointer", [])
      else some (name ++ ": \x7b:?\x7d", [Tokens.selfField name]) := by
  rw [Item.impl_debug.eq_def, hw, hty]
  show (match (ctx.items inner).ty with
    | none => debug_print name
    | some innerKind =>
      match canonicalKind ctx fuel innerKind with
      | TypeKind.function c =>
        if c = false then some (name ++ ": FunctionPointer", []) else debug_print name
      | _ => debug_print name) = _
  rw [hk]
  cases hck : canonicalKind ctx fuel k
  case function c => cases c <;> simp [hck, isNonDebugFnKind, debug_print]
  all_goals simp [hck, isNonDebugFnKind, debug_print]

/-- Witness for C6: a pointer to the non-trivially-renderable function
signature item renders as the literal FunctionPointer fragment. -/
theorem c6_function_pointer_witness :
    Item.impl_debug ctxW 1 ⟨6, "P", false, false, some (TypeKind.pointer 20)⟩ "x" =
      some ("x" ++ ": FunctionPointer", []) :=
  (c6_function_pointer ctxW 1 ⟨6, "P", false, false, some (TypeKind.pointer 20)⟩ "x" 20
      (TypeKind.function false) (by decide) rfl rfl (by decide)).trans (by decide)

/-! ## C8: alias transparency -/

/-- C8: for a whitelisted item whose type is any of the three
alias-like kinds, resolving the item gives exactly what resolving the
alias target gives (one unit of fuel accounts for the alias step). -/
theorem c8_alias_transparent (ctx : BindgenContext) (fuel : Nat) (item : Item)
    (name : String) (t : ItemId)
    (hw : ctx.whitelist.contains item.id = true)
    (hty : item.ty = some (TypeKind.resolvedTypeRef t) ∨
      item.ty = some (TypeKind.templateAlias t) ∨
      item.ty = some (TypeKind.alias t)) :
    Item.impl_debug ctx (fuel + 1) item name = Item.impl_debug ctx fuel (ctx.items t) name := by
  rcases hty with h | h | h <;> (rw [Item.impl_debug.eq_def, hw, h]; simp)

/-- Witness for C8: a three-deep alias chain (template alias to
resolved reference to plain alias) resolves exactly like the integer
item it terminates in. -/
theorem c8_alias_transparent_witness :
    Item.impl_debug ctxW 3 (itemsW 4) "x" = some ("x: \x7b:?\x7d", [Tokens.selfField "x"]) :=
  (c8_alias_transparent ctxW 2 (itemsW 4) "x" 3 (by decide) (Or.inr (Or.inl (by decide)))).trans
    ((c8_alias_transparent ctxW 1 (itemsW 3) "x" 2 (by decide) (Or.inl (by decide))).trans
      ((c8_alias_transparent ctxW 0 (itemsW 2) "x" 1 (by decide)
          (Or.inr (Or.inr (by decide)))).trans (by decide)))

/-! ## C10: bitfield units always yield a fragment -/

/-- C10 counterexample: a unit whose two sub-fields are both unnamed
yields the fragment `(", ", [])`, not `("", [])` — the separator push
precedes the name check, so each non-first sub-field leaves a `", "`
even when unnamed. -/
theorem c10_all_unnamed_counterexample :
    BitfieldUnit.impl_debug ⟨[⟨none, 2⟩, ⟨none, 3⟩]⟩ ctxW = some (", ", []) ∧
    (", " : String) ≠ "" := by
  constructor <;> decide

theorem bitfieldLoop_all_unnamed : ∀ (l : List Bitfield) (acc : String × List Tokens) (i : Nat),
    0 < i → (∀ b ∈ l, b.name = none) →
    bitfieldLoop acc i l = (acc.1 ++ sepJoin l.length, acc.2)
  | [], acc, i, _, _ => by
    simp only [bitfieldLoop]
    cases acc with
    | mk s toks =>
      congr 1
      apply str_ext
      simp [data_append, sepJoin]
  | b :: rest, acc, i, hi, hn => by
    have hb : b.name = none := hn b (by simp)
    have hrest : ∀ x ∈ rest, x.name = none := fun x hx => hn x (by simp [hx])
    simp only [bitfieldLoop, hi, if_pos, hb]
    rw [bitfieldLoop_all_unnamed rest _ (i + 1) (by omega) hrest]
    congr 1
    apply str_ext
    simp [data_append, sepJoin, List.replicate_succ, List.append_assoc]

/-- C10 amended: `BitfieldUnit::impl_debug` always returns `some`; a
unit whose sub-fields are all unnamed yields zero value-expressions and
a template of count − 1 copies of `", "` (so `("", [])` exactly when
the unit has at most one sub-field); and such a surviving fragment
still takes part in the record-level join, so a named field followed by
a single-sub-field all-unnamed unit gets a trailing `", "` before the
empty fragment text. -/
theorem c10_bitfield_always_some :
    (∀ (bu : BitfieldUnit) (ctx : BindgenContext), (BitfieldUnit.impl_debug bu ctx).isSome = true) ∧
    (∀ (bu : BitfieldUnit) (ctx : BindgenContext),
      (∀ b ∈ bu.bitfields, b.name = none) →
      BitfieldUnit.impl_debug bu ctx = some (sepJoin (bu.bitfields.length - 1), [])) ∧
    (∀ (ctx : BindgenContext) (fuel : Nat) (item : Item) (nx : String) (tyX : ItemId) (w : Nat),
      item.isOpaqueFlag = false →
      ctx.whitelist.contains (ctx.items tyX).id = true →
      (ctx.items tyX).ty = some TypeKind.int →
      gen_debug_impl ctx fuel
          [Field.dataMember ⟨some nx, tyX⟩, Field.bitfields ⟨[⟨none, w⟩]⟩] item
          CompKind.struct =
        ⟨item.canonicalName ++ (" \x7b\x7b " ++ (nx ++ ": \x7b:?\x7d,  \x7d\x7d")),
          [Tokens.selfField nx]⟩) := by
  refine ⟨fun bu ctx => rfl, fun bu ctx hall => ?_, ?_⟩
  · cases hbu : bu.bitfields with
    | nil =>
      simp only [BitfieldUnit.impl_debug, hbu, bitfieldLoop]
      congr 1
    | cons b rest =>
      have hb : b.name = none := by
        have := hall b (by simp [hbu])
        exact this
      have hrest : ∀ x ∈ rest, x.name = none := fun x hx => hall x (by simp [hbu, hx])
      simp only [BitfieldUnit.impl_debug, hbu, bitfieldLoop, hb]
      rw [bitfieldLoop_all_unnamed rest _ 1 (by omega) hrest]
      simp only [List.length_cons, Nat.add_sub_cancel]
      congr 2
  · intro ctx fuel item nx tyX w hop hwx htx
    have hresX : Item.impl_debug ctx fuel (ctx.items tyX) nx =
        some (nx ++ ": \x7b:?\x7d", [Tokens.selfField nx]) := by
      rw [Item.impl_debug.eq_def, hwx, htx]
      simp [debug_print]
    have hunit : BitfieldUnit.impl_debug ⟨[⟨none, w⟩]⟩ ctx = some ("", []) := by
      simp [BitfieldUnit.impl_debug, bitfieldLoop]
    have hval : gen_debug_impl ctx fuel
        [Field.dataMember ⟨some nx, tyX⟩, Field.bitfields ⟨[⟨none, w⟩]⟩] item
        CompKind.struct =
        ⟨item.canonicalName ++ " \x7b\x7b " ++ (nx ++ ": \x7b:?\x7d") ++ ", " ++ "" ++ " \x7d\x7d",
          [Tokens.selfField nx] ++ []⟩ := by
      simp [gen_debug_impl, hop, FieldData.impl_debug, hresX, hunit, fieldsLoop]
    rw [hval]
    congr 1
    apply str_ext
    simp [data_append, List.append_assoc]

/-- Witness for C10: the two hypothesis-bearing parts instantiated on
closed inputs — an all-unnamed pair of sub-fields, and a struct with a
named field followed by a single-sub-field all-unnamed unit. -/
theorem c10_bitfield_always_some_witness :
    BitfieldUnit.impl_debug ⟨[⟨none, 2⟩, ⟨none, 4⟩]⟩ ctxS = some (sepJoin 1, []) ∧
    gen_debug_impl ctxW 1 [Field.dataMember ⟨some "x", 1⟩, Field.bitfields ⟨[⟨none, 2⟩]⟩]
        ⟨7, "S", false, false, some TypeKind.comp⟩ CompKind.struct =
      ⟨("S" : String) ++ (" \x7b\x7b " ++ ("x" ++ ": \x7b:?\x7d,  \x7d\x7d")),
        [Tokens.selfField "x"]⟩ :=
  ⟨c10_bitfield_always_some.2.1 ⟨[⟨none, 2⟩, ⟨none, 4⟩]⟩ ctxS (by decide),
   c10_bitfield_always_some.2.2 ctxW 1 ⟨7, "S", false, false, some TypeKind.comp⟩ "x" 1 2
     rfl (by decide) (by decide)⟩

/-! ## C4: placeholder and value-expression parity -/

/-- A fragment of the shape label-plus-literal is well formed whenever
the literal's placeholder count matches the token count. -/
theorem litFrag_fragOk {name : String} (hn : labelOk name) (lit : String) (toks : List Tokens)
    (hc : cphAux lit.data = toks.length) (hnt : noTrailLb lit.data) (hne : lit.data ≠ []) :
    fragOk (name ++ lit, toks) :=
  ⟨by show cphAux (name ++ lit).data = toks.length
      rw [data_append, cphAux_lfree_append (labelOk_lfree hn)]
      exact hc,
   by show noTrailLb (name ++ lit).data
      rw [data_append]
      exact (noTrailLb_append_right _ hne).mpr hnt⟩

theorem debug_print_fragOk {name : String} (hn : labelOk name) {p : String × List Tokens}
    (hp : debug_print name = some p) : fragOk p := by
  cases hp
  exact litFrag_fragOk hn ": \x7b:?\x7d" [Tokens.selfField name] rfl (by decide) (by decide)

theorem arrayLen_fragOk {name : String} (hn : labelOk name) (len : Nat) :
    fragOk (name ++ ": Array with length " ++ natRepr len, []) := by
  have hall : ∀ c ∈ (name.data ++ (": Array with length " : String).data) ++ (natRepr len).data,
      c ≠ lbrace := by
    intro c hc
    rcases List.mem_append.mp hc with h | h
    · rcases List.mem_append.mp h with h2 | h2
      · exact (hn c h2).1
      · exact (by decide : ∀ c ∈ (": Array with length " : String).data, c ≠ lbrace) c h2
    · exact (natRepr_lfree len c h).1
  refine ⟨?_, ?_⟩
  · show cphAux (name ++ ": Array with length " ++ natRepr len).data = 0
    simp only [data_append]
    exact cphAux_of_lfree _ hall
  · show noTrailLb (name ++ ": Array with length " ++ natRepr len).data
    simp only [data_append]
    exact noTrailLb_of_lfree _ hall

/-- Every fragment the resolver returns has matching placeholder and
value-expression counts and no trailing lone brace. -/
theorem impl_debug_fragOk (ctx : BindgenContext) :
    ∀ (fuel : Nat) (item : Item) (name : String), labelOk name →
      ∀ p, Item.impl_debug ctx fuel item name = some p → fragOk p := by
  intro fuel
  induction fuel with
  | zero =>
    intro item name hn p hp
    rw [Item.impl_debug.eq_def] at hp
    split at hp
    · exact Option.noConfusion hp
    split at hp
    · exact Option.noConfusion hp
    split at hp
    all_goals try exact Option.noConfusion hp
    all_goals try split at hp
    all_goals try split at hp
    all_goals try split at hp
    all_goals first
      | exact Option.noConfusion hp
      | exact debug_print_fragOk hn hp
      | (cases hp; exact arrayLen_fragOk hn _)
      | (cases hp
         refine litFrag_fragOk hn _ _ ?_ ?_ ?_ <;> first | rfl | decide)
  | succ f ih =>
    intro item name hn p hp
    rw [Item.impl_debug.eq_def] at hp
    split at hp
    · exact Option.noConfusion hp
    split at hp
    · exact Option.noConfusion hp
    split at hp
    all_goals try exact ih _ _ hn p hp
    all_goals try split at hp
    all_goals try split at hp
    all_goals try split at hp
    all_goals first
      | exact Option.noConfusion hp
      | exact debug_print_fragOk hn hp
      | (cases hp; exact arrayLen_fragOk hn _)
      | (cases hp
         refine litFrag_fragOk hn _ _ ?_ ?_ ?_ <;> first | rfl | decide)

theorem sep_cph (s : String) (i : Nat) (h2 : noTrailLb s.data) :
    cphAux (if i > 0 then s ++ ", " else s).data = cphAux s.data := by
  by_cases hi : i > 0
  · rw [if_pos hi, data_append, cphAux_append _ h2]
    have h0 : cphAux (", " : String).data = 0 := by decide
    omega
  · rw [if_neg hi]

theorem sep_noTrail (s : String) (i : Nat) (h2 : noTrailLb s.data) :
    noTrailLb (if i > 0 then s ++ ", " else s).data := by
  by_cases hi : i > 0
  · rw [if_pos hi, data_append]
    exact noTrailLb_append h2 (by decide)
  · rw [if_neg hi]
    exact h2

theorem bitfieldLoop_fragOk : ∀ (l : List Bitfield) (acc : String × List Tokens) (i : Nat),
    (∀ b ∈ l, optLabelOk b.name) →
    cphAux acc.1.data = acc.2.length → noTrailLb acc.1.data →
    fragOk (bitfieldLoop acc i l)
  | [], _, _, _, h1, h2 => ⟨h1, h2⟩
  | b :: rest, acc, i, hl, h1, h2 => by
    have hfs1 : cphAux (if i > 0 then acc.1 ++ ", " else acc.1).data = acc.2.length :=
      (sep_cph acc.1 i h2).trans h1
    have hfs2 : noTrailLb (if i > 0 then acc.1 ++ ", " else acc.1).data :=
      sep_noTrail acc.1 i h2
    have hrest : ∀ x ∈ rest, optLabelOk x.name := fun x hx => hl x (by simp [hx])
    cases hbn : b.name with
    | none =>
      simp only [bitfieldLoop, hbn]
      exact bitfieldLoop_fragOk rest _ (i + 1) hrest hfs1 hfs2
    | some n =>
      have hn : labelOk n := by
        have := hl b (by simp)
        rw [hbn] at this
        exact this
      simp only [bitfieldLoop, hbn]
      refine bitfieldLoop_fragOk rest _ (i + 1) hrest ?_ ?_
      · rw [data_append, data_append,
          cphAux_append _ (noTrailLb_append hfs2 (noTrailLb_of_lfree _ (labelOk_lfree hn))),
          cphAux_append _ hfs2, cphAux_of_lfree _ (labelOk_lfree hn), hfs1]
        have hlit : cphAux (" : \x7b:?\x7d" : String).data = 1 := by decide
        simp [hlit]
      · rw [data_append, data_append]
        exact noTrailLb_append
          (noTrailLb_append hfs2 (noTrailLb_of_lfree _ (labelOk_lfree hn))) (by decide)

theorem bitfieldUnit_fragOk (bu : BitfieldUnit) (ctx : BindgenContext)
    (hl : ∀ b ∈ bu.bitfields, optLabelOk b.name) :
    ∀ p, BitfieldUnit.impl_debug bu ctx = some p → fragOk p := by
  intro p hp
  cases hp
  exact bitfieldLoop_fragOk bu.bitfields ("", []) 0 hl rfl trivial

theorem fieldsLoop_fragOk : ∀ (l : List (String × List Tokens)) (acc : String × List Tokens) (i : Nat),
    (∀ p ∈ l, fragOk p) →
    cphAux acc.1.data = acc.2.length → noTrailLb acc.1.data →
    fragOk (fieldsLoop acc i l)
  | [], _, _, _, h1, h2 => ⟨h1, h2⟩
  | (fs, toks) :: rest, acc, i, hl, h1, h2 => by
    have hp : fragOk (fs, toks) := hl _ (by simp)
    have hfs1 : cphAux (if i > 0 then acc.1 ++ ", " else acc.1).data = acc.2.length :=
      (sep_cph acc.1 i h2).trans h1
    have hfs2 : noTrailLb (if i > 0 then acc.1 ++ ", " else acc.1).data :=
      sep_noTrail acc.1 i h2
    have hrest : ∀ q ∈ rest, fragOk q := fun q hq => hl q (by simp [hq])
    simp only [fieldsLoop]
    refine fieldsLoop_fragOk rest _ (i + 1) hrest ?_ ?_
    · rw [data_append, cphAux_append _ hfs2, hfs1, hp.1]
      simp
    · rw [data_append]
      exact noTrailLb_append hfs2 hp.2

/-- C4: for every RenderProcedure produced by `gen_debug_impl`, under
the precondition that the display name and all field and sub-field
labels contain no brace characters, the number of placeholder markers
in the finished template equals the number of value-expressions
collected after it (the escaped double braces around the body count as
literal text, not placeholders). -/
theorem c4_placeholder_parity (ctx : BindgenContext) (fuel : Nat) (fields : List Field)
    (item : Item) (kind : CompKind)
    (hname : labelOk item.canonicalName)
    (hf : ∀ f ∈ fields, fieldLabelsOk f) :
    cph (gen_debug_impl ctx fuel fields item kind).format_string =
      (gen_debug_impl ctx fuel fields item kind).tokens.length := by
  have hpref1 : cphAux (item.canonicalName ++ " \x7b\x7b ").data = 0 := by
    rw [data_append, cphAux_lfree_append (labelOk_lfree hname)]
    decide
  have hpref2 : noTrailLb (item.canonicalName ++ " \x7b\x7b ").data := by
    rw [data_append]
    exact (noTrailLb_append_right _ (by decide)).mpr (by decide)
  have key : ∀ (body : String × List Tokens), fragOk body →
      cph (body.1 ++ " \x7d\x7d") = body.2.length := by
    intro body hb
    show cphAux (body.1 ++ " \x7d\x7d").data = body.2.length
    rw [data_append, cphAux_append _ hb.2, hb.1]
    have h0 : cphAux (" \x7d\x7d" : String).data = 0 := by decide
    omega
  simp only [gen_debug_impl.eq_def]
  apply key
  split
  · exact ⟨by rw [data_append, cphAux_append _ hpref2, hpref1]; rfl,
      by rw [data_append]; exact noTrailLb_append hpref2 (by decide)⟩
  split
  · exact ⟨by rw [data_append, cphAux_append _ hpref2, hpref1]; rfl,
      by rw [data_append]; exact noTrailLb_append hpref2 (by decide)⟩
  · refine fieldsLoop_fragOk _ _ 0 ?_ hpref1 hpref2
    intro p hp
    rw [List.mem_filterMap] at hp
    obtain ⟨f, hmem, hfp⟩ := hp
    cases f with
    | dataMember fd =>
      have hlab : optLabelOk fd.name := hf _ hmem
      have hfp2 : FieldData.impl_debug fd ctx fuel = some p := hfp
      rw [FieldData.impl_debug.eq_def] at hfp2
      cases hfd : fd.name with
      | none => rw [hfd] at hfp2; exact Option.noConfusion hfp2
      | some nm =>
        rw [hfd] at hfp2 hlab
        exact impl_debug_fragOk ctx fuel _ nm hlab p hfp2
    | bitfields bu =>
      have hfp2 : BitfieldUnit.impl_debug bu ctx = some p := hfp
      exact bitfieldUnit_fragOk bu ctx (hf _ hmem) p hfp2

/-- Witness for C4 at a concrete struct with a data member, a bitfield
unit with padding, and a large array field. -/
theorem c4_placeholder_parity_witness :
    labelOk ("S" : String) ∧
    cph (gen_debug_impl ctxW 2
        [Field.dataMember ⟨some "a", 2⟩,
         Field.bitfields ⟨[⟨some "u", 3⟩, ⟨none, 2⟩, ⟨some "v", 5⟩]⟩,
         Field.dataMember ⟨some "big", 30⟩]
        ⟨7, "S", false, false, some TypeKind.comp⟩ CompKind.struct).format_string =
      (gen_debug_impl ctxW 2
        [Field.dataMember ⟨some "a", 2⟩,
         Field.bitfields ⟨[⟨some "u", 3⟩, ⟨none, 2⟩, ⟨some "v", 5⟩]⟩,
         Field.dataMember ⟨some "big", 30⟩]
        ⟨7, "S", false, false, some TypeKind.comp⟩ CompKind.struct).tokens.length :=
  ⟨by decide,
   c4_placeholder_parity ctxW 2
     [Field.dataMember ⟨some "a", 2⟩,
      Field.bitfields ⟨[⟨some "u", 3⟩, ⟨none, 2⟩, ⟨some "v", 5⟩]⟩,
      Field.dataMember ⟨some "big", 30⟩]
     ⟨7, "S", false, false, some TypeKind.comp⟩ CompKind.struct (by decide) (by decide)⟩

/-! ## C9: termination of the recursive descent -/

theorem canonicalKind_of_nonalias {k : TypeKind} (hnone : aliasTargetOfKind k = none)
    (ctx : BindgenContext) : ∀ f, canonicalKind ctx f k = k := by
  intro f
  cases f with
  | zero => rfl
  | succ g => simp [canonicalKind, hnone]

/-- The canonical form is independent of the fuel once the fuel covers
the alias chain's bound. -/
theorem canonicalKind_stable (ctx : BindgenContext) :
    ∀ (k : TypeKind) (m : Nat), KB ctx k m → ∀ f1 f2, m ≤ f1 → m ≤ f2 →
      canonicalKind ctx f1 k = canonicalKind ctx f2 k := by
  intro k m hkb
  induction hkb with
  | base k n hnone =>
    intro f1 f2 _ _
    rw [canonicalKind_of_nonalias hnone ctx f1, canonicalKind_of_nonalias hnone ctx f2]
  | stepSome k t k2 n halias hty2 hkb2 ih =>
    intro f1 f2 h1 h2
    obtain ⟨a, rfl⟩ : ∃ a, f1 = a + 1 := ⟨f1 - 1, by omega⟩
    obtain ⟨b, rfl⟩ : ∃ b, f2 = b + 1 := ⟨f2 - 1, by omega⟩
    simp only [canonicalKind, halias, hty2]
    exact ih a b (by omega) (by omega)
  | stepNone k t n halias hty2 =>
    intro f1 f2 h1 h2
    obtain ⟨a, rfl⟩ : ∃ a, f1 = a + 1 := ⟨f1 - 1, by omega⟩
    obtain ⟨b, rfl⟩ : ∃ b, f2 = b + 1 := ⟨f2 - 1, by omega⟩
    simp only [canonicalKind, halias, hty2]

theorem impl_debug_ty_none (ctx : BindgenContext) {it : Item} (h : it.ty = none)
    (fuel : Nat) (name : String) : Item.impl_debug ctx fuel it name = none := by
  rw [Item.impl_debug.eq_def, h]
  split <;> rfl

/-- Fuel-independence of the resolver above the alias bound: the core
of the termination argument.  Induction over the boundedness derivation
of the item's own alias chain, with the global bound `N` covering the
chains reached through pointer canonicalization. -/
theorem impl_debug_stable_aux (ctx : BindgenContext) (N : Nat) (hg : GraphBounded ctx N) :
    ∀ (k : TypeKind) (m : Nat), KB ctx k m → ∀ (item : Item) (name : String) (f1 f2 : Nat),
      item.ty = some k → m + N ≤ f1 → m + N ≤ f2 →
      Item.impl_debug ctx f1 item name = Item.impl_debug ctx f2 item name := by
  intro k m hkb
  induction hkb with
  | base k n hnone =>
    intro item name f1 f2 hty h1 h2
    rw [Item.impl_debug.eq_def, Item.impl_debug.eq_def, hty]
    cases k
    case resolvedTypeRef t => exact absurd hnone (by simp [aliasTargetOfKind])
    case templateAlias t => exact absurd hnone (by simp [aliasTargetOfKind])
    case «alias» t => exact absurd hnone (by simp [aliasTargetOfKind])
    case pointer inner =>
      by_cases hw : ctx.whitelist.contains item.id = false
      · rw [if_pos hw, if_pos hw]
      · rw [if_neg hw, if_neg hw]
        show (match (ctx.items inner).ty with
          | none => debug_print name
          | some innerKind =>
            match canonicalKind ctx f1 innerKind with
            | TypeKind.function c =>
              if c = false then some (name ++ ": FunctionPointer", []) else debug_print name
            | _ => debug_print name) =
          (match (ctx.items inner).ty with
          | none => debug_print name
          | some innerKind =>
            match canonicalKind ctx f2 innerKind with
            | TypeKind.function c =>
              if c = false then some (name ++ ": FunctionPointer", []) else debug_print name
            | _ => debug_print name)
        cases hin : (ctx.items inner).ty with
        | none => rfl
        | some kin =>
          show (match canonicalKind ctx f1 kin with
            | TypeKind.function c =>
              if c = false then some (name ++ ": FunctionPointer", []) else debug_print name
            | _ => debug_print name) =
            (match canonicalKind ctx f2 kin with
            | TypeKind.function c =>
              if c = false then some (name ++ ": FunctionPointer", []) else debug_print name
            | _ => debug_print name)
          rw [canonicalKind_stable ctx kin N (hg inner kin hin) f1 f2 (by omega) (by omega)]
    all_goals rfl
  | stepSome k t k2 n halias hty2 hkb2 ih =>
    intro item name f1 f2 hty h1 h2
    obtain ⟨a, rfl⟩ : ∃ a, f1 = a + 1 := ⟨f1 - 1, by omega⟩
    obtain ⟨b, rfl⟩ : ∃ b, f2 = b + 1 := ⟨f2 - 1, by omega⟩
    cases k <;> try exact Option.noConfusion halias
    case resolvedTypeRef t' =>
      have ht' : t' = t := by simpa [aliasTargetOfKind] using halias
      subst ht'
      rw [Item.impl_debug.eq_def, Item.impl_debug.eq_def, hty]
      by_cases hw : ctx.whitelist.contains item.id = false
      · rw [if_pos hw, if_pos hw]
      · rw [if_neg hw, if_neg hw]
        show Item.impl_debug ctx a (ctx.items t') name = Item.impl_debug ctx b (ctx.items t') name
        exact ih (ctx.items t') name a b hty2 (by omega) (by omega)
    case templateAlias t' =>
      have ht' : t' = t := by simpa [aliasTargetOfKind] using halias
      subst ht'
      rw [Item.impl_debug.eq_def, Item.impl_debug.eq_def, hty]
      by_cases hw : ctx.whitelist.contains item.id = false
      · rw [if_pos hw, if_pos hw]
      · rw [if_neg hw, if_neg hw]
        show Item.impl_debug ctx a (ctx.items t') name = Item.impl_debug ctx b (ctx.items t') name
        exact ih (ctx.items t') name a b hty2 (by omega) (by omega)
    case «alias» t' =>
      have ht' : t' = t := by simpa [aliasTargetOfKind] using halias
      subst ht'
      rw [Item.impl_debug.eq_def, Item.impl_debug.eq_def, hty]
      by_cases hw : ctx.whitelist.contains item.id = false
      · rw [if_pos hw, if_pos hw]
      · rw [if_neg hw, if_neg hw]
        show Item.impl_debug ctx a (ctx.items t') name = Item.impl_debug ctx b (ctx.items t') name
        exact ih (ctx.items t') name a b hty2 (by omega) (by omega)
  | stepNone k t n halias hty2 =>
    intro item name f1 f2 hty h1 h2
    obtain ⟨a, rfl⟩ : ∃ a, f1 = a + 1 := ⟨f1 - 1, by omega⟩
    obtain ⟨b, rfl⟩ : ∃ b, f2 = b + 1 := ⟨f2 - 1, by omega⟩
    cases k <;> try exact Option.noConfusion halias
    case resolvedTypeRef t' =>
      have ht' : t' = t := by simpa [aliasTargetOfKind] using halias
      subst ht'
      rw [Item.impl_debug.eq_def, Item.impl_debug.eq_def, hty]
      by_cases hw : ctx.whitelist.contains item.id = false
      · rw [if_pos hw, if_pos hw]
      · rw [if_neg hw, if_neg hw]
        show Item.impl_debug ctx a (ctx.items t') name = Item.impl_debug ctx b (ctx.items t') name
        rw [impl_debug_ty_none ctx hty2 a name, impl_debug_ty_none ctx hty2 b name]
    case templateAlias t' =>
      have ht' : t' = t := by simpa [aliasTargetOfKind] using halias
      subst ht'
      rw [Item.impl_debug.eq_def, Item.impl_debug.eq_def, hty]
      by_cases hw : ctx.whitelist.contains item.id = false
      · rw [if_pos hw, if_pos hw]
      · rw [if_neg hw, if_neg hw]
        show Item.impl_debug ctx a (ctx.items t') name = Item.impl_debug ctx b (ctx.items t') name
        rw [impl_debug_ty_none ctx hty2 a name, impl_debug_ty_none ctx hty2 b name]
    case «alias» t' =>
      have ht' : t' = t := by simpa [aliasTargetOfKind] using halias
      subst ht'
      rw [Item.impl_debug.eq_def, Item.impl_debug.eq_def, hty]
      by_cases hw : ctx.whitelist.contains item.id = false
      · rw [if_pos hw, if_pos hw]
      · rw [if_neg hw, if_neg hw]
        show Item.impl_debug ctx a (ctx.items t') name = Item.impl_debug ctx b (ctx.items t') name
        rw [impl_debug_ty_none ctx hty2 a name, impl_debug_ty_none ctx hty2 b name]

/-- C9: under the acyclic-alias-chain precondition (all chains in the
graph bounded by `N`, and the item's own chain bounded by `N`), the
resolver's recursive descent terminates: its result is the same for
every fuel of at least `N + N`, i.e. the fuel embedding stabilizes. -/
theorem c9_termination_fuel_stable (ctx : BindgenContext) (N : Nat) (item : Item) (name : String)
    (hg : GraphBounded ctx N)
    (hi : ∀ k, item.ty = some k → KB ctx k N)
    (f1 f2 : Nat) (h1 : N + N ≤ f1) (h2 : N + N ≤ f2) :
    Item.impl_debug ctx f1 item name = Item.impl_debug ctx f2 item name := by
  cases hty : item.ty with
  | none => rw [impl_debug_ty_none ctx hty f1 name, impl_debug_ty_none ctx hty f2 name]
  | some k => exact impl_debug_stable_aux ctx N hg k N (hi k hty) item name f1 f2 hty h1 h2

/-- Witness for C9 on a context where every id is the integer item and
the resolved item is a one-step alias: bound 1, fuels 2 and 3. -/
theorem c9_termination_fuel_stable_witness :
    Item.impl_debug ctxS 2 ⟨8, "A", false, false, some (TypeKind.alias 1)⟩ "x" =
      Item.impl_debug ctxS 3 ⟨8, "A", false, false, some (TypeKind.alias 1)⟩ "x" :=
  c9_termination_fuel_stable ctxS 1 ⟨8, "A", false, false, some (TypeKind.alias 1)⟩ "x"
    (by
      intro id k h
      have hk : TypeKind.int = k := Option.some.inj h
      subst hk
      exact KB.base _ _ rfl)
    (by
      intro k h
      have hk : TypeKind.alias 1 = k := Option.some.inj h
      subst hk
      exact KB.stepSome _ 1 TypeKind.int 0 rfl rfl (KB.base _ _ rfl))
    2 3 (by omega) (by omega)

end ImplDebug
